import Mathlib

/-
  Verification of the onyx real-time EQ engine (src/app/eq_engine.py).

  The filter arithmetic is embedded over the exact rationals, and the
  coefficient design (which uses sin, cos and powers of ten) over the
  real numbers.  Machine-float rounding is abstracted away: the spec
  itself states its numeric properties up to floating tolerance, and
  over exact arithmetic the tolerances become exact equalities.
-/

namespace Onyx

/-- One second-order section: the six values (b0, b1, b2, a0, a1, a2)
returned by the coefficient designer.  The code stores them as one row
of a numpy array; the filter ignores the a0 slot (always 1). -/
structure SOS (R : Type) where
  b0 : R
  b1 : R
  b2 : R
  a0 : R
  a1 : R
  a2 : R
deriving Repr, DecidableEq

/-- Embedding of eq_engine._apply_sos (lines 41 to 55): the manual
single-section filter loop.  The Python loop walks the block front to
back, keeping two delay registers z0, z1; per sample it computes
y = b0*x + z0, then z0 = b1*x - a1*y + z1 and z1 = b2*x - a2*y, and
writes y to the output.  It returns the output block and the pair of
final registers. -/
def applySos (c : SOS ℚ) (data : List ℚ) (zi : ℚ × ℚ) : List ℚ × (ℚ × ℚ) :=
  match data with
  | [] => ([], zi)
  | x :: rest =>
      let y := c.b0 * x + zi.1
      let z0 := c.b1 * x - c.a1 * y + zi.2
      let z1 := c.b2 * x - c.a2 * y
      let r := applySos c rest (z0, z1)
      (y :: r.1, r.2)

/-- One step of the difference equation exactly as the spec words it
(section 4.2): from state (z0, z1) and input x, emit y = b0*x + z0 and
move to state (b1*x - a1*y + z1, b2*x - a2*y).  Written as a fold step
that appends each emitted sample. -/
def sosSpecStep (c : SOS ℚ) (acc : (ℚ × ℚ) × List ℚ) (x : ℚ) : (ℚ × ℚ) × List ℚ :=
  let y := c.b0 * x + acc.1.1
  ((c.b1 * x - c.a1 * y + acc.1.2, c.b2 * x - c.a2 * y), acc.2 ++ [y])

/-- The spec-side filter: fold the per-sample recurrence of section 4.2
over the block, starting from the given state and an empty output. -/
def applySosSpec (c : SOS ℚ) (data : List ℚ) (zi : ℚ × ℚ) : List ℚ × (ℚ × ℚ) :=
  let r := data.foldl (sosSpecStep c) (zi, [])
  (r.2, r.1)

/-- The identity section {1,0,0,1,0,0} that _peaking_sos returns for
near-zero gain. -/
def identitySOS : SOS ℚ := ⟨1, 0, 0, 1, 0, 0⟩

lemma applySos_nil (c : SOS ℚ) (zi : ℚ × ℚ) : applySos c [] zi = ([], zi) := rfl

lemma applySos_cons (c : SOS ℚ) (x : ℚ) (rest : List ℚ) (zi : ℚ × ℚ) :
    applySos c (x :: rest) zi =
      ((c.b0 * x + zi.1) ::
        (applySos c rest
          (c.b1 * x - c.a1 * (c.b0 * x + zi.1) + zi.2,
           c.b2 * x - c.a2 * (c.b0 * x + zi.1))).1,
       (applySos c rest
          (c.b1 * x - c.a1 * (c.b0 * x + zi.1) + zi.2,
           c.b2 * x - c.a2 * (c.b0 * x + zi.1))).2) := rfl

lemma applySos_length (c : SOS ℚ) (data : List ℚ) (zi : ℚ × ℚ) :
    (applySos c data zi).1.length = data.length := by
  induction data generalizing zi with
  | nil => rfl
  | cons x rest ih => simp [applySos_cons, ih]

lemma foldl_sosSpecStep (c : SOS ℚ) (data : List ℚ) (zi : ℚ × ℚ) (acc : List ℚ) :
    data.foldl (sosSpecStep c) (zi, acc) =
      ((applySos c data zi).2, acc ++ (applySos c data zi).1) := by
  induction data generalizing zi acc with
  | nil => simp [applySos_nil]
  | cons x rest ih =>
      simp only [List.foldl_cons, sosSpecStep, applySos_cons, ih]
      simp [List.append_assoc]

/-- C1: _apply_sos computes exactly the direct-form recurrence of the
spec, sample by sample (it equals the fold of the spec recurrence over
the block), returns an output block of the same length as the input,
and returns exactly two scalars of state (the type of the second
component). -/
theorem applySos_correct (c : SOS ℚ) (data : List ℚ) (zi : ℚ × ℚ) :
    applySos c data zi = applySosSpec c data zi ∧
      (applySos c data zi).1.length = data.length := by
  refine ⟨?_, applySos_length c data zi⟩
  simp [applySosSpec, foldl_sosSpecStep]

lemma applySos_append (c : SOS ℚ) (xs ys : List ℚ) (zi : ℚ × ℚ) :
    applySos c (xs ++ ys) zi =
      ((applySos c xs zi).1 ++ (applySos c ys (applySos c xs zi).2).1,
       (applySos c ys (applySos c xs zi).2).2) := by
  induction xs generalizing zi with
  | nil => simp [applySos_nil]
  | cons x rest ih => simp [applySos_cons, ih]

/-- C2: state continuity.  Filtering a block in one call gives the same
output and the same final state as filtering the first k samples, then
the rest with the state threaded through, for every split index k.
Exact over the rationals, hence within any floating tolerance. -/
theorem applySos_split (c : SOS ℚ) (x : List ℚ) (zi : ℚ × ℚ) (k : ℕ) :
    (applySos c (x.take k) zi).1 ++
        (applySos c (x.drop k) (applySos c (x.take k) zi).2).1 =
      (applySos c x zi).1 ∧
    (applySos c (x.drop k) (applySos c (x.take k) zi).2).2 =
      (applySos c x zi).2 := by
  have h := applySos_append c (x.take k) (x.drop k) zi
  rw [List.take_append_drop] at h
  exact ⟨by rw [h], by rw [h]⟩

/-- C4 counterexample: with the identity coefficients but a nonzero
input state, the output is not the input.  On the one-sample block [0]
with state (1, 0) the filter emits 1, not 0. -/
theorem applySos_identity_state_counterexample :
    (applySos identitySOS [0] (1, 0)).1 ≠ [0] := by
  have h : applySos identitySOS [0] (1, 0) = ([1], (0, 0)) := by
    rw [applySos_cons]
    norm_num [identitySOS, applySos_nil]
  rw [h]
  simp

lemma applySos_identity_cons (x : ℚ) (rest : List ℚ) :
    applySos identitySOS (x :: rest) (0, 0) =
      (x :: (applySos identitySOS rest (0, 0)).1,
       (applySos identitySOS rest (0, 0)).2) := by
  rw [applySos_cons]
  norm_num [identitySOS]

/-- C4 (amended): with the identity coefficients and zero input state
(the only state the engine ever pairs with a fresh bank), the filter
returns the block unchanged and leaves the state at zero. -/
theorem applySos_identity_zero_state (data : List ℚ) :
    applySos identitySOS data (0, 0) = (data, (0, 0)) := by
  induction data with
  | nil => rfl
  | cons x rest ih => rw [applySos_identity_cons, ih]

/-- C10: on an empty block the filter returns an empty output and the
input state unchanged. -/
theorem applySos_empty (c : SOS ℚ) (zi : ℚ × ℚ) :
    applySos c [] zi = ([], zi) := rfl

/-- The five fixed band center frequencies (eq_engine.BAND_FREQS). -/
def BAND_FREQS : List ℝ := [60, 250, 1000, 4000, 16000]

/-- The fixed band quality factor (eq_engine._Q). -/
def Qfixed : ℝ := 1.41

/-- Embedding of eq_engine._peaking_sos (lines 23 to 38): the peaking-EQ
biquad designer.  Gains within 0.05 dB of zero give the identity
section; otherwise the classic RBJ formulas with A = 10^(gain/40),
w0 = 2*pi*freq/fs, alpha = sin(w0)/(2*Q), normalized by a0. -/
noncomputable def peaking_sos (freq gain_db Q : ℝ) (fs : ℕ) : SOS ℝ :=
  if |gain_db| < 0.05 then ⟨1, 0, 0, 1, 0, 0⟩
  else
    let A := (10 : ℝ) ^ (gain_db / 40)
    let w0 := 2 * Real.pi * freq / fs
    let cosw := Real.cos w0
    let sinw := Real.sin w0
    let alpha := sinw / (2 * Q)
    let b0 := 1 + alpha * A
    let b1 := -2 * cosw
    let b2 := 1 - alpha * A
    let a0 := 1 + alpha / A
    let a1 := -2 * cosw
    let a2 := 1 - alpha / A
    ⟨b0 / a0, b1 / a0, b2 / a0, 1, a1 / a0, a2 / a0⟩

/-- C3: whenever the absolute gain is below 0.05 dB, the designer
returns exactly the identity section {1,0,0,1,0,0}, for every
frequency, Q and sample rate. -/
theorem peaking_sos_identity (freq gain_db Q : ℝ) (fs : ℕ)
    (h : |gain_db| < 0.05) :
    peaking_sos freq gain_db Q fs = ⟨1, 0, 0, 1, 0, 0⟩ := by
  simp only [peaking_sos]
  rw [if_pos h]

/-- Witness for C3 at gain 0, frequency 1000 Hz, Q 1.41, 44100 Hz. -/
theorem peaking_sos_identity_witness :
    peaking_sos 1000 0 1.41 44100 = ⟨1, 0, 0, 1, 0, 0⟩ :=
  peaking_sos_identity 1000 0 1.41 44100 (by norm_num)

lemma peaking_sos_a2 (freq gain_db Q : ℝ) (fs : ℕ)
    (h : ¬ |gain_db| < 0.05) :
    (peaking_sos freq gain_db Q fs).a2 =
      (1 - Real.sin (2 * Real.pi * freq / fs) / (2 * Q) / (10 : ℝ) ^ (gain_db / 40)) /
        (1 + Real.sin (2 * Real.pi * freq / fs) / (2 * Q) / (10 : ℝ) ^ (gain_db / 40)) := by
  simp only [peaking_sos]
  rw [if_neg h]

/-- C5: for every band frequency, Q = 1.41, any moderate gain
(0.05 <= |gain| <= 12 dB) and any sample rate of at least 32000 Hz,
the normalized pole coefficient a2 satisfies |a2| < 1.1. -/
theorem peaking_sos_pole_bound (freq gain_db Q : ℝ) (fs : ℕ)
    (hf : freq ∈ BAND_FREQS) (hQ : Q = 1.41)
    (hg1 : 0.05 ≤ |gain_db|) (hg2 : |gain_db| ≤ 12) (hfs : 32000 ≤ fs) :
    |(peaking_sos freq gain_db Q fs).a2| < 1.1 := by
  have hfreq : 0 < freq ∧ 2 * freq ≤ 32000 := by
    simp only [BAND_FREQS, List.mem_cons, List.not_mem_nil, or_false] at hf
    rcases hf with rfl | rfl | rfl | rfl | rfl <;> norm_num
  have hfsR : (32000 : ℝ) ≤ (fs : ℝ) := by exact_mod_cast hfs
  have hfs0 : (0 : ℝ) < (fs : ℝ) := by linarith
  have hA : (0 : ℝ) < (10 : ℝ) ^ (gain_db / 40) :=
    Real.rpow_pos_of_pos (by norm_num) _
  have hw0 : 0 ≤ 2 * Real.pi * freq / fs :=
    div_nonneg
      (mul_nonneg (mul_nonneg (by norm_num) Real.pi_pos.le) hfreq.1.le)
      hfs0.le
  have hwpi : 2 * Real.pi * freq / fs ≤ Real.pi := by
    rw [div_le_iff₀ hfs0]
    nlinarith [Real.pi_pos, hfreq.2]
  have hsin : 0 ≤ Real.sin (2 * Real.pi * freq / fs) :=
    Real.sin_nonneg_of_nonneg_of_le_pi hw0 hwpi
  rw [peaking_sos_a2 freq gain_db Q fs (not_lt.mpr hg1)]
  set t := Real.sin (2 * Real.pi * freq / fs) / (2 * Q) / (10 : ℝ) ^ (gain_db / 40) with hts
  have ht : 0 ≤ t := by
    apply div_nonneg (div_nonneg hsin _) hA.le
    rw [hQ]; norm_num
  have h1t : (0 : ℝ) < 1 + t := by linarith
  rw [abs_div, abs_of_pos h1t, div_lt_iff₀ h1t]
  have habs : |1 - t| ≤ 1 + t := abs_le.mpr ⟨by linarith, by linarith⟩
  calc |1 - t| ≤ 1 + t := habs
    _ < 1.1 * (1 + t) := by nlinarith

/-- Witness for C5 at the 16000 Hz band, gain 6 dB, fs = 32000 Hz. -/
theorem peaking_sos_pole_bound_witness :
    |(peaking_sos 16000 6 1.41 32000).a2| < 1.1 :=
  peaking_sos_pole_bound 16000 6 1.41 32000 (by simp [BAND_FREQS]) rfl
    (by norm_num) (by norm_num) (by norm_num)

/-- Truncation toward zero: the Python int() conversion applied to
ms / 1000.0 * fs (exact value, rounding of the float product
abstracted to the exact rational). -/
def truncToInt (q : ℚ) : ℤ := if 0 ≤ q then ⌊q⌋ else ⌈q⌉

/-- Frame index computed from a millisecond position, as in
int(ms / 1000.0 * fs). -/
def msToFrames (ms : ℤ) (fs : ℕ) : ℤ := truncToInt ((ms : ℚ) / 1000 * fs)

/-- The clamped frame index the engine applies to the frame source,
both at play start (eq_engine lines 111 to 112) and when the loop
consumes a pending seek (line 137):
max(0, min(int(ms / 1000.0 * fs), total_f - 1)). -/
def clampedFrame (ms : ℤ) (fs total_f : ℕ) : ℤ :=
  max 0 (min (msToFrames ms fs) ((total_f : ℤ) - 1))

/-- C6: for every requested position (seek target or play start), on a
nonempty file the frame index actually applied lies in
[0, total_frames - 1]; the clamp is total, so no target is an error. -/
theorem clampedFrame_in_range (ms : ℤ) (fs total_f : ℕ) (h : 1 ≤ total_f) :
    0 ≤ clampedFrame ms fs total_f ∧
      clampedFrame ms fs total_f ≤ (total_f : ℤ) - 1 := by
  refine ⟨le_max_left _ _, ?_⟩
  have h0 : (0 : ℤ) ≤ (total_f : ℤ) - 1 := by
    have h1 : (1 : ℤ) ≤ (total_f : ℤ) := by exact_mod_cast h
    linarith
  exact max_le h0 (min_le_right _ _)

/-- Witness for C6: a far negative seek target on a 100-frame file. -/
theorem clampedFrame_in_range_witness :
    0 ≤ clampedFrame (-987654) 44100 100 ∧
      clampedFrame (-987654) 44100 100 ≤ ((100 : ℕ) : ℤ) - 1 :=
  clampedFrame_in_range (-987654) 44100 100 (by norm_num)

/-- Embedding of EQEngine.set_volume (lines 77 to 78): the stored
volume is max(0.0, min(1.0, v)). -/
def set_volume (v : ℚ) : ℚ := max 0 (min 1 v)

/-- C8: set_volume stores the clamp of its argument into [0, 1]: any
in-range value is stored unchanged, every stored value lies in [0, 1],
1.5 is stored as 1 and -0.5 as 0.  The function reads no transport
state, so the result is the same in every transport state. -/
theorem set_volume_clamps (v w : ℚ) (h0 : 0 ≤ v) (h1 : v ≤ 1) :
    set_volume v = v ∧ 0 ≤ set_volume w ∧ set_volume w ≤ 1 ∧
      set_volume 1.5 = 1 ∧ set_volume (-0.5) = 0 := by
  refine ⟨?_, le_max_left _ _, max_le (by norm_num) (min_le_left _ _), ?_, ?_⟩
  · rw [set_volume, min_eq_right h1, max_eq_right h0]
  · norm_num [set_volume, min_def, max_def]
  · norm_num [set_volume, min_def, max_def]

/-- Witness for C8 at the in-range value 1/2 and out-of-range value 5. -/
theorem set_volume_clamps_witness :
    set_volume (1 / 2) = 1 / 2 ∧ 0 ≤ set_volume 5 ∧ set_volume 5 ≤ 1 ∧
      set_volume 1.5 = 1 ∧ set_volume (-0.5) = 0 :=
  set_volume_clamps (1 / 2) 5 (by norm_num) (by norm_num)

/-- np.clip of one sample to [-1, 1]. -/
def clipSample (x : ℚ) : ℚ := min 1 (max (-1) x)

/-- One band applied to every channel (the inner loop of eq_engine
lines 158 to 161): each channel column goes through the same section
with its own pair of delay registers. -/
def applyBandChannels (c : SOS ℚ) (chans : List (List ℚ)) (zis : List (ℚ × ℚ)) :
    List (List ℚ) × List (ℚ × ℚ) :=
  ((List.zipWith (fun col z => applySos c col z) chans zis).map Prod.fst,
   (List.zipWith (fun col z => applySos c col z) chans zis).map Prod.snd)

/-- All bands in series (the outer loop of lines 157 to 161): the bank
is the list of (section, per-channel state) pairs, processed in order,
each band reading the previous band output in place. -/
def applyBank :
    List (SOS ℚ × List (ℚ × ℚ)) → List (List ℚ) →
      List (List ℚ) × List (List (ℚ × ℚ))
  | [], chans => (chans, [])
  | (c, zis) :: rest, chans =>
      let r1 := applyBandChannels c chans zis
      let r2 := applyBank rest r1.1
      (r2.1, r1.2 :: r2.2)

/-- The per-iteration output pipeline of lines 155 to 166: filter all
bands over all channels, multiply by the current volume, hard-clip
each sample to [-1, 1]. -/
def processBlock (bank : List (SOS ℚ × List (ℚ × ℚ)))
    (block : List (List ℚ)) (vol : ℚ) : List (List ℚ) :=
  ((applyBank bank block).1).map (fun col => col.map (fun s => clipSample (s * vol)))

/-- C9: every sample of the block written to the sink lies in [-1, 1],
for every bank (hence every gain vector), every input block and every
volume. -/
theorem processBlock_bounded (bank : List (SOS ℚ × List (ℚ × ℚ)))
    (block : List (List ℚ)) (vol : ℚ) (col : List ℚ) (s : ℚ)
    (hcol : col ∈ processBlock bank block vol) (hs : s ∈ col) :
    -1 ≤ s ∧ s ≤ 1 := by
  rcases List.mem_map.mp hcol with ⟨col0, _, rfl⟩
  rcases List.mem_map.mp hs with ⟨s0, _, rfl⟩
  exact ⟨le_min (by norm_num) (le_max_left _ _), min_le_left _ _⟩

/-- Witness for C9: the empty bank, a one-channel one-sample block
holding 2, volume 1; the emitted sample is 1. -/
theorem processBlock_bounded_witness : -1 ≤ (1 : ℚ) ∧ (1 : ℚ) ≤ 1 :=
  processBlock_bounded [] [[2]] 1 [1] 1
    (by norm_num [processBlock, applyBank, clipSample, max_def, min_def])
    (by simp)

/-- The audio-thread loop variables of _run that the seek and rebuild
steps touch: the gain vector last used to build the bank, the bank of
sections, the per-band per-channel delay registers, and the current
frame position. -/
structure LoopState where
  gains : List ℚ
  sosList : List (SOS ℝ)
  ziList : List (List (ℝ × ℝ))
  posFrames : ℤ

/-- Fresh all-zero filter state, one pair of registers per channel per
band: [np.zeros((2, channels)) for _ in sos_list]. -/
def zeroZi (nBands channels : ℕ) : List (List (ℝ × ℝ)) :=
  List.replicate nBands (List.replicate channels (0, 0))

/-- The bank built from the fixed band list and a gain vector (lines
120 and 152): [_peaking_sos(f, g, _Q, fs) for f, g in
zip(BAND_FREQS, gains)]. -/
noncomputable def buildBank (fs : ℕ) (gains : List ℚ) : List (SOS ℝ) :=
  (BAND_FREQS.zip gains).map (fun fg => peaking_sos fg.1 (fg.2 : ℝ) Qfixed fs)

/-- The seek-consumption step of the loop (lines 131 to 139): if a seek
is pending, clamp it, reposition, and replace every delay register
with zeros; the bank itself is untouched. -/
def consumeSeek (fs total_f channels : ℕ) (seekMs : Option ℤ)
    (st : LoopState) : LoopState :=
  match seekMs with
  | none => st
  | some ms =>
      { st with
        posFrames := clampedFrame ms fs total_f,
        ziList := zeroZi st.sosList.length channels }

/-- The rebuild step of the loop (lines 148 to 153): if the freshly
read gain vector differs by value from the one last used, rebuild the
whole bank from the same band list and replace every delay register
with zeros; otherwise nothing changes. -/
noncomputable def rebuildIfChanged (fs channels : ℕ) (newGains : List ℚ)
    (st : LoopState) : LoopState :=
  if newGains ≠ st.gains then
    { st with
      gains := newGains,
      sosList := buildBank fs newGains,
      ziList := zeroZi (buildBank fs newGains).length channels }
  else st

lemma zeroZi_all_zero (nBands channels : ℕ) :
    ∀ row ∈ zeroZi nBands channels, ∀ z ∈ row, z = ((0 : ℝ), (0 : ℝ)) := by
  intro row hrow z hz
  rw [List.eq_of_mem_replicate hrow] at hz
  exact List.eq_of_mem_replicate hz

/-- C7: consuming a pending seek resets every delay register to exactly
zero and leaves the bank and the gain vector untouched; a rebuild
forced by a changed gain vector resets every delay register to exactly
zero and rebuilds the bank from the same fixed band list, so for a
full-length gain vector the band frequencies and their order are
unchanged. -/
theorem seek_and_rebuild_reset_state (fs total_f channels : ℕ) (ms : ℤ)
    (g : List ℚ) (st : LoopState) (hg : g ≠ st.gains) :
    (consumeSeek fs total_f channels (some ms) st).ziList =
        zeroZi st.sosList.length channels ∧
      (consumeSeek fs total_f channels (some ms) st).sosList = st.sosList ∧
      (consumeSeek fs total_f channels (some ms) st).gains = st.gains ∧
      (∀ row ∈ (consumeSeek fs total_f channels (some ms) st).ziList,
        ∀ z ∈ row, z = ((0 : ℝ), (0 : ℝ))) ∧
      (rebuildIfChanged fs channels g st).ziList =
        zeroZi (buildBank fs g).length channels ∧
      (rebuildIfChanged fs channels g st).sosList = buildBank fs g ∧
      (∀ row ∈ (rebuildIfChanged fs channels g st).ziList,
        ∀ z ∈ row, z = ((0 : ℝ), (0 : ℝ))) ∧
      (g.length = BAND_FREQS.length →
        (BAND_FREQS.zip g).map Prod.fst = BAND_FREQS) := by
  have hre : rebuildIfChanged fs channels g st =
      { st with
        gains := g,
        sosList := buildBank fs g,
        ziList := zeroZi (buildBank fs g).length channels } := by
    rw [rebuildIfChanged, if_pos hg]
  refine ⟨rfl, rfl, rfl, zeroZi_all_zero _ _, ?_, ?_, ?_, ?_⟩
  · rw [hre]
  · rw [hre]
  · rw [hre]
    exact zeroZi_all_zero _ _
  · intro hlen
    exact List.map_fst_zip _ _ hlen.ge

/-- Witness for C7: a pending seek to 0 ms and a gain change on the
first band, from a state with flat gains and an empty bank. -/
theorem seek_and_rebuild_reset_state_witness :
    (consumeSeek 44100 1000 2 (some 0)
          ⟨[0, 0, 0, 0, 0], [], [], 0⟩).ziList =
        zeroZi (List.length ([] : List (SOS ℝ))) 2 ∧
      (consumeSeek 44100 1000 2 (some 0)
          ⟨[0, 0, 0, 0, 0], [], [], 0⟩).sosList = [] ∧
      (consumeSeek 44100 1000 2 (some 0)
          ⟨[0, 0, 0, 0, 0], [], [], 0⟩).gains = [0, 0, 0, 0, 0] ∧
      (∀ row ∈ (consumeSeek 44100 1000 2 (some 0)
          ⟨[0, 0, 0, 0, 0], [], [], 0⟩).ziList,
        ∀ z ∈ row, z = ((0 : ℝ), (0 : ℝ))) ∧
      (rebuildIfChanged 44100 2 [1, 0, 0, 0, 0]
          ⟨[0, 0, 0, 0, 0], [], [], 0⟩).ziList =
        zeroZi (buildBank 44100 [1, 0, 0, 0, 0]).length 2 ∧
      (rebuildIfChanged 44100 2 [1, 0, 0, 0, 0]
          ⟨[0, 0, 0, 0, 0], [], [], 0⟩).sosList =
        buildBank 44100 [1, 0, 0, 0, 0] ∧
      (∀ row ∈ (rebuildIfChanged 44100 2 [1, 0, 0, 0, 0]
          ⟨[0, 0, 0, 0, 0], [], [], 0⟩).ziList,
        ∀ z ∈ row, z = ((0 : ℝ), (0 : ℝ))) ∧
      (([1, 0, 0, 0, 0] : List ℚ).length = BAND_FREQS.length →
        (BAND_FREQS.zip ([1, 0, 0, 0, 0] : List ℚ)).map Prod.fst = BAND_FREQS) :=
  seek_and_rebuild_reset_state 44100 1000 2 0 [1, 0, 0, 0, 0]
    ⟨[0, 0, 0, 0, 0], [], [], 0⟩ (by simp)

end Onyx
